import Mathlib

/-!
Verification development for the museum-studies graph explorer.

The embedding below translates the repository's data-processing code
(`parseAttributes`, `parseDotData`, `getEdgeColor`, `getSizeForNode` in
`src/unnamed/part_000`, and the layout-force configuration
`applyLayoutForces` plus the layout-change effect in
`src/components/Sidebar.tsx`) into executable Lean definitions.

Modelling conventions:
* JavaScript numbers are modelled by `JSNum`: `NaN`, signed infinities, or an
  exact rational.  All numeric values the embedded code constructs are exact
  decimal fractions, for which the model of `parseFloat` and of JS number
  formatting (`String(n)`) agrees with IEEE-754 double semantics; the model
  does not round to 53-bit precision, an idealization that only matters for
  inputs with more significant digits than a double can hold.
* JavaScript objects (attribute records, node records) are modelled by
  insertion-ordered association lists with unique keys (`assocSet` updates an
  existing key in place, as JS property assignment and `Map.set` do).
* The three regular expressions of the parser are embedded as specialized
  matchers implementing the leftmost-match, lazy-quantifier backtracking
  semantics of JS `String.match`, with `.` not matching line terminators.
* `Math.cos` / `Math.sin` / `Math.PI` (used only in the `subset` layout) are
  passed in as an abstract `JsMath` structure, keeping the development
  computable.
-/

namespace Museum

/-! ## JavaScript character classes and string primitives -/

/-- Code points of the `StrWhiteSpace` characters of JS (the set usable by
`String.prototype.trim` and by the regex class `\s`). -/
def jsWsCodes : List Nat :=
  [0x9, 0xa, 0xb, 0xc, 0xd, 0x20, 0xa0, 0x1680, 0x2000, 0x2001, 0x2002, 0x2003,
   0x2004, 0x2005, 0x2006, 0x2007, 0x2008, 0x2009, 0x200a, 0x2028, 0x2029,
   0x202f, 0x205f, 0x3000, 0xfeff]

def isJsWs (c : Char) : Bool := jsWsCodes.contains c.toNat

/-- JS line terminators, which `.` in a regex never matches. -/
def isLineTerm (c : Char) : Bool :=
  ([0xa, 0xd, 0x2028, 0x2029] : List Nat).contains c.toNat

/-- Model of `String.prototype.trim`. -/
def jsTrim (s : String) : String :=
  ⟨((s.data.dropWhile isJsWs).reverse.dropWhile isJsWs).reverse⟩

/-- Case mapping used by `toLowerCase`, covering the ASCII and Cyrillic
letters that appear in the classifier's keyword table. -/
def jsLowerChar (c : Char) : Char :=
  let n := c.toNat
  if 65 ≤ n ∧ n ≤ 90 then Char.ofNat (n + 32)
  else if 0x410 ≤ n ∧ n ≤ 0x42f then Char.ofNat (n + 32)
  else if n = 0x401 then Char.ofNat 0x451
  else c

def jsToLower (s : String) : String := ⟨s.data.map jsLowerChar⟩

def isPrefixB : List Char → List Char → Bool
  | [], _ => true
  | _ :: _, [] => false
  | a :: as, b :: bs => a = b && isPrefixB as bs

def isInfixB (pat : List Char) : List Char → Bool
  | [] => isPrefixB pat []
  | c :: t => isPrefixB pat (c :: t) || isInfixB pat t

/-- Model of `String.prototype.includes`. -/
def jsIncludes (s pat : String) : Bool := isInfixB pat.data s.data

/-! ## JavaScript numbers -/

/-- A JS number: `NaN`, a signed infinity, or a finite value.  Finite values
are kept as exact rationals (see the header comment). -/
inductive JSNum where
  | nan
  | inf (neg : Bool)
  | fin (q : ℚ)
  deriving DecidableEq, Repr

def digitVal (c : Char) : Nat := c.toNat - 48

def digitsToNat (ds : List Char) : Nat :=
  ds.foldl (fun a c => a * 10 + digitVal c) 0

/-- Core of `parseFloat`: parse the longest `StrDecimalLiteral` prefix of `l`
(sign, `Infinity`, or decimal mantissa with optional exponent), returning the
value and the unconsumed rest.  `none` models a `NaN` result. -/
def parseFloatCore (l0 : List Char) : Option (JSNum × List Char) :=
  let sl : Bool × List Char :=
    match l0 with
    | '-' :: r => (true, r)
    | '+' :: r => (false, r)
    | _ => (false, l0)
  let neg := sl.1
  let l := sl.2
  if l.take 8 = "Infinity".data then
    some (.inf neg, l.drop 8)
  else
    let ipr := l.span Char.isDigit
    let ip := ipr.1
    let fpr : List Char × List Char :=
      match ipr.2 with
      | '.' :: r => r.span Char.isDigit
      | _ => ([], ipr.2)
    let fp := fpr.1
    let r2 := fpr.2
    if ip.isEmpty && fp.isEmpty then none
    else
      let mant : ℚ := (digitsToNat ip : ℚ) + (digitsToNat fp : ℚ) / (10 : ℚ) ^ fp.length
      let er : Int × List Char :=
        match r2 with
        | c :: r =>
          if c = 'e' ∨ c = 'E' then
            let sr : Int × List Char :=
              match r with
              | '-' :: rr => (-1, rr)
              | '+' :: rr => (1, rr)
              | _ => (1, r)
            let edr := sr.2.span Char.isDigit
            if edr.1.isEmpty then (0, r2) else (sr.1 * (digitsToNat edr.1 : Int), edr.2)
          else (0, r2)
        | [] => (0, r2)
      let v : ℚ := mant * (10 : ℚ) ^ er.1
      some (.fin (if neg then -v else v), er.2)

/-- Model of `parseFloat(s)`; `none` models `NaN`. -/
def jsParseFloat (s : String) : Option JSNum :=
  (parseFloatCore (s.data.dropWhile isJsWs)).map Prod.fst

/-- Divide out trailing decimal zeros: `natStripZeros s = (s', z)` with
`s = s' * 10 ^ z` and (for `s ≠ 0`) `s'` not divisible by 10. -/
def natStripZerosAux : Nat → Nat → Nat × Nat
  | 0, s => (s, 0)
  | fuel + 1, s =>
    if s ≠ 0 ∧ s % 10 = 0 then
      let p := natStripZerosAux fuel (s / 10)
      (p.1, p.2 + 1)
    else (s, 0)

def natStripZeros (s : Nat) : Nat × Nat := natStripZerosAux s s

/-- `factorOut p n = (k, r)` with `n = p ^ k * r` and `p ∤ r` (for `2 ≤ p`,
`n ≠ 0`). -/
def factorOutAux (p : Nat) : Nat → Nat → Nat × Nat
  | 0, n => (0, n)
  | fuel + 1, n =>
    if 2 ≤ p ∧ n ≠ 0 ∧ n % p = 0 then
      let q := factorOutAux p fuel (n / p)
      (q.1 + 1, q.2)
    else (0, n)

def factorOut (p n : Nat) : Nat × Nat := factorOutAux p n n

def zeroString (n : Nat) : String := ⟨List.replicate n '0'⟩

/-- Model of JS number-to-string conversion (`String(n)`), following the
`Number::toString` algorithm of ECMA-262: shortest digit string, fixed
notation for decimal exponents in `(-6, 21]`, exponential notation otherwise.
Exact whenever the value has a terminating decimal expansion, which holds for
every number the embedded code produces (JS doubles are dyadic rationals). -/
def jsNumToString : JSNum → String
  | .nan => "NaN"
  | .inf true => "-Infinity"
  | .inf false => "Infinity"
  | .fin q =>
    if q = 0 then "0"
    else
      let sign := if q < 0 then "-" else ""
      let m := |q|
      let a := (factorOut 2 m.den).1
      let b := (factorOut 5 m.den).1
      let t := max a b
      let S := m.num.natAbs * 10 ^ t / m.den
      let sz := natStripZeros S
      let ds := toString sz.1
      let k := ds.length
      let n : Int := (k : Int) + sz.2 - t
      if (k : Int) ≤ n ∧ n ≤ 21 then
        sign ++ ds ++ zeroString (n - k).toNat
      else if 0 < n ∧ n ≤ 21 then
        sign ++ ⟨ds.data.take n.toNat⟩ ++ "." ++ ⟨ds.data.drop n.toNat⟩
      else if -6 < n ∧ n ≤ 0 then
        sign ++ "0." ++ zeroString (-n).toNat ++ ds
      else
        let e := n - 1
        let mstr := if k = 1 then ds else ⟨ds.data.take 1⟩ ++ "." ++ ⟨ds.data.drop 1⟩
        sign ++ mstr ++ "e" ++ (if 0 ≤ e then "+" else "-") ++ toString e.natAbs

/-! ## JavaScript values and objects -/

/-- An attribute value: the parser only ever stores strings or numbers. -/
inductive JSVal where
  | str (s : String)
  | num (v : JSNum)
  deriving DecidableEq, Repr

/-- JS truthiness of a value (`undefined` is handled at use sites via
`Option`). -/
def jsTruthy : JSVal → Bool
  | .str s => s ≠ ""
  | .num .nan => false
  | .num (.fin q) => q ≠ 0
  | .num (.inf _) => true

/-- Insertion-ordered association list with unique keys: the model of both a
JS object and a JS `Map`.  `assocSet` updates an existing key in place
(keeping its position) and appends a fresh key, exactly as JS property
assignment and `Map.set` do. -/
def assocSet {α : Type} : List (String × α) → String → α → List (String × α)
  | [], k, v => [(k, v)]
  | p :: rest, k, v => if p.1 = k then (k, v) :: rest else p :: assocSet rest k v

def assocGet {α : Type} : List (String × α) → String → Option α
  | [], _ => none
  | p :: rest, k => if p.1 = k then some p.2 else assocGet rest k

def assocHas {α : Type} (m : List (String × α)) (k : String) : Bool :=
  (assocGet m k).isSome

/-- A JS object, as stored in the node map and attribute records. -/
abbrev JSObj := List (String × JSVal)

/-- Spread merge `{...a, ...b}`: assign each entry of `b` over `a` in
insertion order. -/
def objMerge (a b : JSObj) : JSObj :=
  b.foldl (fun acc p => assocSet acc p.1 p.2) a

/-- Model of the `ToNumber` coercion applied by `*`: trimmed empty string is
0, otherwise the whole string must be a numeric literal (decimal,
`Infinity`, or an unsigned hex/octal/binary literal). -/
def jsStringToNumber (s : String) : JSNum :=
  let l := (jsTrim s).data
  if l.isEmpty then .fin 0
  else
    match l with
    | '0' :: c :: rest =>
      if c = 'x' ∨ c = 'X' then
        if rest ≠ [] ∧ rest.all (fun d => d.isDigit ∨ ('a' ≤ d ∧ d ≤ 'f') ∨ ('A' ≤ d ∧ d ≤ 'F')) then
          .fin (rest.foldl (fun a d =>
            a * 16 + ((if d.isDigit then digitVal d
                       else if 'a' ≤ d ∧ d ≤ 'f' then d.toNat - 87
                       else d.toNat - 55) : ℚ)) 0)
        else .nan
      else if c = 'o' ∨ c = 'O' then
        if rest ≠ [] ∧ rest.all (fun d => '0' ≤ d ∧ d ≤ '7') then
          .fin (rest.foldl (fun a d => a * 8 + (digitVal d : ℚ)) 0)
        else .nan
      else if c = 'b' ∨ c = 'B' then
        if rest ≠ [] ∧ rest.all (fun d => d = '0' ∨ d = '1') then
          .fin (rest.foldl (fun a d => a * 2 + (digitVal d : ℚ)) 0)
        else .nan
      else
        match parseFloatCore l with
        | some (v, []) => v
        | _ => .nan
    | _ =>
      match parseFloatCore l with
      | some (v, []) => v
      | _ => .nan

/-- `ToNumber` on a value. -/
def jsToNumber : JSVal → JSNum
  | .num n => n
  | .str s => jsStringToNumber s

def jsMul : JSNum → JSNum → JSNum
  | .nan, _ => .nan
  | _, .nan => .nan
  | .inf s, .inf t => .inf (xor s t)
  | .inf s, .fin q => if q = 0 then .nan else .inf (xor s (decide (q < 0)))
  | .fin q, .inf s => if q = 0 then .nan else .inf (xor s (decide (q < 0)))
  | .fin a, .fin b => .fin (a * b)

def jsAdd : JSNum → JSNum → JSNum
  | .nan, _ => .nan
  | _, .nan => .nan
  | .inf s, .inf t => if s = t then .inf s else .nan
  | .inf s, .fin _ => .inf s
  | .fin _, .inf s => .inf s
  | .fin a, .fin b => .fin (a + b)

/-! ## Attribute-block parsing (`parseAttributes`) -/

/-- Split an attribute string at the separator regex
`,\s*(?=(?:[^"]*"[^"]*")*[^"]*$)` — a comma (with its following whitespace)
whose suffix contains an even number of double quotes.  The boolean flag is
true while consuming the whitespace of a just-matched separator. -/
def attrSplitAux : Bool → List Char → List Char → List (List Char)
  | _, [], cur => [cur.reverse]
  | true, c :: rest, cur =>
    if isJsWs c then attrSplitAux true rest cur
    else if c = ',' ∧ (rest.count '"') % 2 = 0 then
      cur.reverse :: attrSplitAux true rest []
    else attrSplitAux false rest (c :: cur)
  | false, c :: rest, cur =>
    if c = ',' ∧ (rest.count '"') % 2 = 0 then
      cur.reverse :: attrSplitAux true rest []
    else attrSplitAux false rest (c :: cur)

def attrSplit (s : String) : List String :=
  (attrSplitAux false s.data []).map (fun l => ⟨l⟩)

/-- Model of `String.prototype.split` with a single-character separator. -/
def splitOnChar (sep : Char) : List Char → List (List Char)
  | [] => [[]]
  | c :: rest =>
    let r := splitOnChar sep rest
    if c = sep then [] :: r
    else
      match r with
      | [] => [[c]]
      | t :: ts => (c :: t) :: ts

/-- First two components of `part.split('=').map(s => s.trim())`;
`none` models an `undefined` value (no `=` in the part). -/
def splitEq (part : String) : Option (String × String) :=
  match splitOnChar '=' part.data with
  | [] => none
  | [_] => none
  | k :: v :: _ => some (jsTrim ⟨k⟩, jsTrim ⟨v⟩)

/-- Model of `value.replace(/^"(.*)"$/, '$1')`: strip one pair of surrounding
double quotes when the whole value is quoted (and `.` can match the middle,
i.e. it contains no line terminator). -/
def stripQuotes (v : String) : String :=
  let l := v.data
  if 2 ≤ l.length ∧ l.head? = some '"' ∧ l.getLast? = some '"'
      ∧ ((l.drop 1).dropLast.all (fun c => ¬ isLineTerm c)) then
    ⟨(l.drop 1).dropLast⟩
  else v

/-- Processing of one `key=value` part of an attribute block: drop it unless
both key and value are nonempty; strip quotes; store a number exactly when
`parseFloat` succeeds and JS re-serialization reproduces the string. -/
def attrStep (acc : JSObj) (part : String) : JSObj :=
  match splitEq part with
  | none => acc
  | some (k, v) =>
    if k = "" ∨ v = "" then acc
    else
      let c := stripQuotes v
      match jsParseFloat c with
      | some nv =>
        if jsNumToString nv = c then assocSet acc k (.num nv)
        else assocSet acc k (.str c)
      | none => assocSet acc k (.str c)

/-- Model of `parseAttributes` (src/unnamed/part_000, lines 48–73). -/
def parseAttributes (attrString : String) : JSObj :=
  if attrString = "" then []
  else (attrSplit attrString).foldl attrStep []

/-! ## The parser's regular expressions

`NODE_ATTR_REGEX = /node\s*\[(.*?)\];/`,
`EDGE_REGEX = /"(.+?)"\s*->\s*"(.+?)"\s*(?:\[(.*?)\])?;/`,
`NODE_DEF_REGEX = /"(.+?)"\s*(?:\[(.*?)\])?;/`.

Each is embedded as a specialized matcher: `String.match` scans start
positions left to right and at each start applies backtracking with lazy
quantifiers, `.` never matching a line terminator.  A lazy `(.+?)"` tries
closing-quote positions in increasing order; a lazy `(.*?)\]` tries closing
brackets in increasing order; `\s*` before a non-whitespace literal is
deterministic; the optional group `(?:...)?` is tried with the group first. -/

/-- Candidate matches of `(.+?)"`: splits `l = cap ++ '"' :: rest` with `cap`
nonempty and free of line terminators, in increasing order of `cap`. -/
def candsPlus : List Char → List (List Char × List Char)
  | [] => []
  | c :: rest =>
    if isLineTerm c then []
    else
      (match rest with
       | '"' :: r => [([c], r)]
       | _ => []) ++ (candsPlus rest).map (fun p => (c :: p.1, p.2))

/-- Candidate matches of `(.*?)\]`: splits `l = cap ++ ']' :: rest` with
`cap` free of line terminators, in increasing order of `cap`. -/
def candsClose : List Char → List (List Char × List Char)
  | [] => []
  | c :: rest =>
    (if c = ']' then [([], rest)] else []) ++
      (if isLineTerm c then
        ([] : List (List Char × List Char))
      else (candsClose rest).map (fun p => (c :: p.1, p.2)))

/-- Try `node\s*\[(.*?)\];` at the head of `l`. -/
def tryNodeAttrAt (l : List Char) : Option String :=
  match l with
  | 'n' :: 'o' :: 'd' :: 'e' :: r =>
    match r.dropWhile isJsWs with
    | '[' :: r2 =>
      (candsClose r2).findSome? (fun p =>
        if p.2.head? = some ';' then some (⟨p.1⟩ : String) else none)
    | _ => none
  | _ => none

def matchNodeAttrAux : List Char → Option String
  | [] => none
  | c :: rest =>
    match tryNodeAttrAt (c :: rest) with
    | some a => some a
    | none => matchNodeAttrAux rest

/-- Model of `cleanLine.match(NODE_ATTR_REGEX)`, returning capture 1. -/
def matchNodeAttr (s : String) : Option String := matchNodeAttrAux s.data

/-- Try the shared tail `\s*(?:\[(.*?)\])?;`, returning the optional
bracketed capture.  The optional group is preferred; on its failure the bare
`;` alternative is tried at the same position. -/
def tryAttrTail (r : List Char) : Option (Option String) :=
  let r6 := r.dropWhile isJsWs
  match
    (match r6 with
     | '[' :: r7 =>
       (candsClose r7).findSome? (fun p =>
         if p.2.head? = some ';' then some (some (⟨p.1⟩ : String)) else none)
     | _ => none) with
  | some a => some a
  | none => if r6.head? = some ';' then some none else none

/-- Try `"(.+?)"\s*->\s*"(.+?)"\s*(?:\[(.*?)\])?;` at the head of `l`. -/
def tryEdgeAt : List Char → Option (String × String × Option String)
  | '"' :: r =>
    (candsPlus r).findSome? (fun p1 =>
      match p1.2.dropWhile isJsWs with
      | '-' :: '>' :: r3 =>
        match r3.dropWhile isJsWs with
        | '"' :: r4 =>
          (candsPlus r4).findSome? (fun p2 =>
            (tryAttrTail p2.2).map (fun a => ((⟨p1.1⟩ : String), (⟨p2.1⟩ : String), a)))
        | _ => none
      | _ => none)
  | _ => none

def matchEdgeAux : List Char → Option (String × String × Option String)
  | [] => none
  | c :: rest =>
    match tryEdgeAt (c :: rest) with
    | some a => some a
    | none => matchEdgeAux rest

/-- Model of `cleanLine.match(EDGE_REGEX)`: captures 1–3. -/
def matchEdge (s : String) : Option (String × String × Option String) :=
  matchEdgeAux s.data

/-- Try `"(.+?)"\s*(?:\[(.*?)\])?;` at the head of `l`. -/
def tryNodeDefAt : List Char → Option (String × Option String)
  | '"' :: r =>
    (candsPlus r).findSome? (fun p1 =>
      (tryAttrTail p1.2).map (fun a => ((⟨p1.1⟩ : String), a)))
  | _ => none

def matchNodeDefAux : List Char → Option (String × Option String)
  | [] => none
  | c :: rest =>
    match tryNodeDefAt (c :: rest) with
    | some a => some a
    | none => matchNodeDefAux rest

/-- Model of `cleanLine.match(NODE_DEF_REGEX)`: captures 1–2. -/
def matchNodeDef (s : String) : Option (String × Option String) :=
  matchNodeDefAux s.data

/-! ## The line parser (`parseDotData`)

The source reads the fixed constant `DOT_DATA`; the embedding takes the text
as the argument, as the spec's contract `parse(text)` does. -/

structure LinkData where
  source : String
  target : String
  label : String
  deriving DecidableEq, Repr

/-- Parser state: the node `Map` (insertion-ordered, keyed by identifier),
the link list, and the current default node style. -/
structure PState where
  nodes : List (String × JSObj)
  links : List LinkData
  style : JSObj
  deriving DecidableEq, Repr

/-- Seed value of `currentNodeStyle`. -/
def defaultNodeStyle : JSObj :=
  [("fontname", .str "Arial"), ("shape", .str "ellipse"), ("style", .str "filled"),
   ("color", .str "gray70"), ("fillcolor", .str "white"), ("fontsize", .num (.fin 60)),
   ("width", .num (.fin 1)), ("height", .num (.fin (7/10)))]

/-- Model of `id.replace(/\\"/g, '"')`. -/
def unescapeQuotes : List Char → List Char
  | '\\' :: '"' :: rest => '"' :: unescapeQuotes rest
  | c :: rest => c :: unescapeQuotes rest
  | [] => []

def jsValToString : JSVal → String
  | .str s => s
  | .num n => jsNumToString n

/-- The skip guard on a cleaned line (falsy, comment, `digraph`, `}`). -/
def guardSkip (c : String) : Bool :=
  c = "" || isPrefixB "//".data c.data || isPrefixB "digraph".data c.data || c = "\x7d"

/-- Node object inserted for an edge endpoint not yet declared:
`{ id: source, label: source, ...currentNodeStyle }`. -/
def mkImplicitNode (id : String) (style : JSObj) : JSObj :=
  objMerge [("id", .str id), ("label", .str id)] style

/-- Node object for an explicit declaration:
`{ id, label: unescaped, ...currentNodeStyle, ...localAttrs }`. -/
def mkDeclNode (id : String) (style localAttrs : JSObj) : JSObj :=
  objMerge (objMerge [("id", .str id), ("label", .str ⟨unescapeQuotes id.data⟩)] style)
    localAttrs

/-- `capture ? parseAttributes(capture) : {}`. -/
def optAttrs : Option String → JSObj
  | some a => parseAttributes a
  | none => []

/-- `attrs.label !== undefined ? String(attrs.label) : ''`. -/
def edgeLabel (attrs : JSObj) : String :=
  match assocGet attrs "label" with
  | some v => jsValToString v
  | none => ""

def hasArrow (c : String) : Bool := jsIncludes c "->"

/-- One iteration of the `lines.forEach` body of `parseDotData`. -/
def lineStep (st : PState) (line : String) : PState :=
  let clean := jsTrim line
  if guardSkip clean then st
  else
    match matchNodeAttr clean with
    | some attrStr => { st with style := objMerge st.style (parseAttributes attrStr) }
    | none =>
      match matchEdge clean with
      | some (source, target, attrStr) =>
        let attrs := optAttrs attrStr
        let n1 := if assocHas st.nodes source then st.nodes
                  else assocSet st.nodes source (mkImplicitNode source st.style)
        let n2 := if assocHas n1 target then n1
                  else assocSet n1 target (mkImplicitNode target st.style)
        { st with nodes := n2,
                  links := st.links ++ [⟨source, target, edgeLabel attrs⟩] }
      | none =>
        match matchNodeDef clean with
        | some (id, attrStr) =>
          if hasArrow clean then st
          else
            { st with nodes := assocSet st.nodes id (mkDeclNode id st.style (optAttrs attrStr)) }
        | none => st

def initState : PState := ⟨[], [], defaultNodeStyle⟩

def parseLines (lines : List String) : PState := lines.foldl lineStep initState

/-- Parser state after processing all lines of `text`. -/
def parseDotState (text : String) : PState := parseLines (text.splitOn "\n")

structure GraphData where
  nodes : List JSObj
  links : List LinkData
  deriving DecidableEq, Repr

/-- Model of `parseDotData` (src/unnamed/part_000, lines 75–150), with the
input text as argument. -/
def parseDotData (text : String) : GraphData :=
  let st := parseDotState text
  ⟨st.nodes.map Prod.snd, st.links⟩

/-! ## Edge classifier (`getEdgeColor`) -/

def interactionKeywords : List String :=
  ["взаимодействие", "нажатие", "использование", "вращение", "тяга", "толчок",
   "управление", "действие", "включение", "запускание", "дуть", "надавливание",
   "надувание", "сидение", "вставание", "пробование", "общение"]

def perceptionKeywords : List String :=
  ["наблюдение", "слышание", "ощущение", "видение", "внимание", "восприятие",
   "чувствование", "рассматривание"]

def structureKeywords : List String :=
  ["часть", "наличие", "составленность", "расположение", "принадлежность",
   "содержание", "обладание", "вхождение", "близость"]

def attributeKeywords : List String :=
  ["характеристика", "тождество", "пример", "причина", "результат", "свойство",
   "функция", "значение", "условие", "возможность", "способность", "рост",
   "отсутствие", "потеря"]

def creationKeywords : List String :=
  ["создание", "возникновение", "образование", "формирование", "появление",
   "разработка", "открытие", "рождение", "превращение"]

/-- Does the lowercased label contain one of the keywords
(`keywords.some(k => l.includes(k))`)? -/
def hasKeyword (kws : List String) (l : String) : Bool :=
  kws.any (fun k => jsIncludes l k)

/-- Model of `getEdgeColor` (src/unnamed/part_000, lines 30–45); `none`
models an `undefined` label. -/
def getEdgeColor (label : Option String) : String :=
  match label with
  | none => "#64748b"
  | some s =>
    if s = "" then "#64748b"
    else
      let l := jsToLower s
      if hasKeyword interactionKeywords l then "#3b82f6"
      else if hasKeyword perceptionKeywords l then "#a855f7"
      else if hasKeyword structureKeywords l then "#f97316"
      else if hasKeyword attributeKeywords l then "#10b981"
      else if hasKeyword creationKeywords l then "#ef4444"
      else "#64748b"

def edgeColorTable : List String :=
  ["#3b82f6", "#a855f7", "#f97316", "#10b981", "#ef4444", "#64748b"]

/-! ## Node display size (`getSizeForNode`) -/

/-- Model of `getSizeForNode`: `(node.width || 1) * 10 + 5` with JS
truthiness (`0`, `NaN`, empty string and `undefined` all fall back to `1`)
and `ToNumber` coercion in the arithmetic. -/
def getSizeForNode (node : JSObj) : JSNum :=
  let baseWidth : JSVal :=
    match assocGet node "width" with
    | some v => if jsTruthy v then v else .num (.fin 1)
    | none => .num (.fin 1)
  jsAdd (jsMul (jsToNumber baseWidth) (.fin 10)) (.fin 5)

/-! ## Layout forces (`applyLayoutForces` and the layout-change effect,
src/components/Sidebar.tsx lines 418–527) -/

inductive LayoutType where
  | force | radial | circuit | subset | grid
  deriving DecidableEq, Repr

/-- A named d3 force as configured by the code.  Accessor-valued parameters
are kept as functions; `none` stands for a d3 default that the code does not
set. -/
inductive Force where
  | link (links : List LinkData) (distance : Option ℚ) (strength : Option ℚ)
  | manyBody (strength : ℚ)
  | center (x y : ℚ) (strength : Option ℚ)
  | collide (radius : JSObj → JSNum) (iterations : Option ℕ)
  | radial (radius : JSObj → ℚ) (x y : ℚ) (strength : ℚ)
  | forceX (target : JSObj → ℕ → ℚ) (strength : ℚ)
  | forceY (target : JSObj → ℕ → ℚ) (strength : ℚ)

/-- The d3 force simulation, restricted to what the component observes: the
named-force map, the energy level, whether the solver loop is running, and
the node records (with their solver-owned positions). -/
structure Simulation where
  forces : List (String × Force)
  alpha : ℚ
  running : Bool
  nodes : List JSObj

def setForce (sim : Simulation) (name : String) (f : Force) : Simulation :=
  { sim with forces := assocSet sim.forces name f }

/-- `simulation.force(name, null)` removes the named force. -/
def removeForce (sim : Simulation) (name : String) : Simulation :=
  { sim with forces := sim.forces.filter (fun p => p.1 ≠ name) }

def getForce (sim : Simulation) (name : String) : Option Force :=
  assocGet sim.forces name

/-- `Math.PI`, `Math.cos`, `Math.sin`, passed in abstractly (the source
calls them only in the `subset` branch). -/
structure JsMath where
  pi : ℚ
  cos : ℚ → ℚ
  sin : ℚ → ℚ

/-- Number of grid columns: exact model of `Math.ceil(Math.sqrt(n * 1.5))`,
i.e. the least `k` with `2 * k ^ 2 ≥ 3 * n`. -/
def gridCols (n : ℕ) : ℕ :=
  let s := Nat.sqrt ((3 * n + 1) / 2)
  if 3 * n ≤ 2 * s ^ 2 then s else s + 1

/-- `Array.from(new Set(xs))`: insertion-ordered deduplication. -/
def dedupFirst : List JSVal → List JSVal
  | [] => []
  | x :: xs => x :: (dedupFirst xs).filter (fun y => y ≠ x)

/-- `d.fillcolor || '#ccc'`. -/
def fillcolorKey (d : JSObj) : JSVal :=
  match assocGet d "fillcolor" with
  | some v => if jsTruthy v then v else .str "#ccc"
  | none => .str "#ccc"

/-- Model of `applyLayoutForces`.  The link force object is created once,
installed, and then mutated by the mode branch; the model installs it with
its final parameters.  The `circuit` branch overwrites the common collide
force with its own. -/
def applyLayoutForces (M : JsMath) (sim : Simulation) (mode : LayoutType)
    (w h : ℚ) (graphData : GraphData) : Simulation :=
  let linkParams : Option ℚ × Option ℚ :=
    match mode with
    | .force => (some 100, none)
    | .radial => (none, some (1 / 10))
    | .circuit => (some 150, some (8 / 10))
    | .subset => (none, some (5 / 100))
    | .grid => (none, some (1 / 100))
  let s1 := setForce sim "link" (.link graphData.links linkParams.1 linkParams.2)
  let s2 := setForce s1 "collide"
    (.collide (fun d => jsAdd (getSizeForNode d) (.fin 5)) (some 2))
  match mode with
  | .force =>
    setForce (setForce s2 "charge" (.manyBody (-300))) "center" (.center (w / 2) (h / 2) none)
  | .radial =>
    setForce (setForce s2 "charge" (.manyBody (-100))) "radial"
      (.radial (fun d =>
          match getSizeForNode d with
          | .fin q => if 40 < q then 0 else if 30 < q then 250 else if 20 < q then 500 else 800
          | .inf false => 0
          | _ => 800)
        (w / 2) (h / 2) (8 / 10))
  | .circuit =>
    setForce
      (setForce (setForce s2 "charge" (.manyBody (-1200))) "center"
        (.center (w / 2) (h / 2) (some (5 / 100))))
      "collide" (.collide (fun d => jsMul (getSizeForNode d) (.fin (3 / 2))) none)
  | .subset =>
    let groups := dedupFirst (graphData.nodes.map fillcolorKey)
    let groupCount := groups.length
    let radius := min w h * (35 / 100)
    let centerOf : JSVal → Option (ℚ × ℚ) := fun color =>
      (groups.indexOf? color).map (fun i =>
        let angle := ((i : ℚ) / groupCount) * 2 * M.pi
        (w / 2 + radius * M.cos angle, h / 2 + radius * M.sin angle))
    let s3 := setForce s2 "charge" (.manyBody (-100))
    let s4 := setForce s3 "x" (.forceX (fun d _ =>
        match centerOf (fillcolorKey d) with
        | some c => if c.1 = 0 then w / 2 else c.1
        | none => w / 2) (1 / 2))
    setForce s4 "y" (.forceY (fun d _ =>
        match centerOf (fillcolorKey d) with
        | some c => if c.2 = 0 then h / 2 else c.2
        | none => h / 2) (1 / 2))
  | .grid =>
    let n := graphData.nodes.length
    let cols := gridCols n
    let scale : ℚ := 120
    let s3 := setForce s2 "charge" (.manyBody (-50))
    let s4 := setForce s3 "x" (.forceX (fun _ i =>
        let col := i % cols
        (w / 2) - ((cols : ℚ) * scale) / 2 + (col : ℚ) * scale) 1)
    setForce s4 "y" (.forceY (fun _ i =>
        let row := i / cols
        (h / 2) - (((n : ℚ) / (cols : ℚ)) * scale) / 2 + (row : ℚ) * scale) 1)

def layoutForceNames : List String :=
  ["link", "charge", "center", "collide", "radial", "x", "y"]

/-- The force-removal phase of the layout-change effect: `simulation.force(n,
null)` for each of the seven names. -/
def clearLayoutForces (sim : Simulation) : Simulation :=
  layoutForceNames.foldl removeForce sim

/-- Model of the layout-change effect (Sidebar.tsx lines 419–440): remove the
seven named forces, install the new mode's forces, then
`simulation.alpha(1).restart()`. -/
def handleLayoutChange (M : JsMath) (sim : Simulation) (mode : LayoutType)
    (w h : ℚ) (graphData : GraphData) : Simulation :=
  let cleared := clearLayoutForces sim
  let installed := applyLayoutForces M cleared mode w h graphData
  { installed with alpha := 1, running := true }

/-- Does processing `line` overwrite the node map entry for `id`?  Only the
explicit node-declaration branch (guard passed, no style-directive or edge
match, declaration match on `id`, no arrow) ever overwrites an existing
entry. -/
def declaresNode (line id : String) : Bool :=
  let c := jsTrim line
  !guardSkip c && (matchNodeAttr c).isNone && (matchEdge c).isNone &&
    (match matchNodeDef c with
     | some p => p.1 = id
     | none => false) && !hasArrow c

/-! ## Association-list lemmas -/

theorem assocGet_assocSet_self {α : Type} (m : List (String × α)) (k : String) (v : α) :
    assocGet (assocSet m k v) k = some v := by
  induction m with
  | nil => simp [assocSet, assocGet]
  | cons p rest ih =>
    by_cases h : p.1 = k
    · simp [assocSet, assocGet, h]
    · simp [assocSet, assocGet, h, ih]

theorem assocGet_assocSet_ne {α : Type} (m : List (String × α)) {k k' : String}
    (h : k' ≠ k) (v : α) : assocGet (assocSet m k v) k' = assocGet m k' := by
  induction m with
  | nil => simp [assocSet, assocGet, Ne.symm h]
  | cons p rest ih =>
    by_cases hp : p.1 = k
    · subst hp
      simp [assocSet, assocGet, Ne.symm h]
    · simp only [assocSet, hp, if_false, assocGet]
      by_cases hp' : p.1 = k' <;> simp [hp', ih]

theorem assocGet_assocSet {α : Type} (m : List (String × α)) (k k' : String) (v : α) :
    assocGet (assocSet m k v) k' = if k' = k then some v else assocGet m k' := by
  by_cases h : k' = k
  · subst h; simp [assocGet_assocSet_self]
  · simp [h, assocGet_assocSet_ne m h v]

theorem assocHas_assocSet_self {α : Type} (m : List (String × α)) (k : String) (v : α) :
    assocHas (assocSet m k v) k = true := by
  simp [assocHas, assocGet_assocSet_self]

theorem assocHas_assocSet_ne {α : Type} (m : List (String × α)) {k k' : String}
    (h : k' ≠ k) (v : α) : assocHas (assocSet m k v) k' = assocHas m k' := by
  simp [assocHas, assocGet_assocSet_ne m h v]

theorem assocHas_assocSet_of {α : Type} {m : List (String × α)} {k' : String}
    (h : assocHas m k' = true) (k : String) (v : α) :
    assocHas (assocSet m k v) k' = true := by
  by_cases hk : k' = k
  · subst hk; exact assocHas_assocSet_self m k' v
  · rw [assocHas_assocSet_ne m hk v]; exact h

theorem assocGet_none_of_notMem {α : Type} {m : List (String × α)} {k : String}
    (h : k ∉ m.map Prod.fst) : assocGet m k = none := by
  induction m with
  | nil => rfl
  | cons p rest ih =>
    simp only [List.map_cons, List.mem_cons] at h
    push_neg at h
    simp [assocGet, Ne.symm h.1, ih h.2]

theorem notMem_of_assocHas_false {α : Type} {m : List (String × α)} {k : String}
    (h : assocHas m k = false) : k ∉ m.map Prod.fst := by
  induction m with
  | nil => simp
  | cons p rest ih =>
    simp only [assocHas, assocGet] at h
    by_cases hp : p.1 = k
    · simp [hp] at h
    · simp only [hp, if_false] at h
      simp only [List.map_cons, List.mem_cons]
      push_neg
      exact ⟨fun he => hp he.symm, ih (by simpa [assocHas] using h)⟩

theorem keys_assocSet {α : Type} (m : List (String × α)) (k : String) (v : α) :
    (assocSet m k v).map Prod.fst =
      if assocHas m k then m.map Prod.fst else m.map Prod.fst ++ [k] := by
  induction m with
  | nil => simp [assocSet, assocHas, assocGet]
  | cons p rest ih =>
    by_cases hp : p.1 = k
    · simp [assocSet, assocHas, assocGet, hp]
    · simp only [assocSet, hp, if_false, List.map_cons, ih, assocHas, assocGet]
      by_cases hr : (assocGet rest k).isSome <;> simp [hr]

theorem nodup_keys_assocSet {α : Type} {m : List (String × α)}
    (h : (m.map Prod.fst).Nodup) (k : String) (v : α) :
    ((assocSet m k v).map Prod.fst).Nodup := by
  rw [keys_assocSet]
  by_cases hk : assocHas m k
  · simpa [hk]
  · have : k ∉ m.map Prod.fst := notMem_of_assocHas_false (by simpa using hk)
    simp [hk, List.nodup_append, this, h]

theorem assocGet_objMerge_of_none {a : JSObj} {b : JSObj} {k : String}
    (h : assocGet b k = none) : assocGet (objMerge a b) k = assocGet a k := by
  induction b generalizing a with
  | nil => rfl
  | cons p bs ih =>
    simp only [assocGet] at h
    by_cases hp : p.1 = k
    · simp [hp] at h
    · simp only [hp, if_false] at h
      show assocGet (objMerge (assocSet a p.1 p.2) bs) k = _
      rw [ih h, assocGet_assocSet_ne a (fun he => hp he.symm) p.2]

theorem assocGet_objMerge_of_some {a : JSObj} {b : JSObj} {k : String} {v : JSVal}
    (hb : (b.map Prod.fst).Nodup) (h : assocGet b k = some v) :
    assocGet (objMerge a b) k = some v := by
  induction b generalizing a with
  | nil => simp [assocGet] at h
  | cons p bs ih =>
    simp only [List.map_cons, List.nodup_cons] at hb
    simp only [assocGet] at h
    by_cases hp : p.1 = k
    · simp only [hp, if_true] at h
      obtain rfl : v = p.2 := by injection h with h'; exact h'.symm
      show assocGet (objMerge (assocSet a p.1 p.2) bs) k = some p.2
      rw [assocGet_objMerge_of_none (assocGet_none_of_notMem (hp ▸ hb.1)),
        hp, assocGet_assocSet_self]
    · simp only [hp, if_false] at h
      show assocGet (objMerge (assocSet a p.1 p.2) bs) k = some v
      exact ih hb.2 h

/-! ## Parser-state invariant lemmas -/

theorem assocHas_lineStep {st : PState} {id : String} (line : String)
    (h : assocHas st.nodes id = true) :
    assocHas (lineStep st line).nodes id = true := by
  unfold lineStep
  by_cases hg : guardSkip (jsTrim line) = true
  · simpa [hg] using h
  · simp only [Bool.not_eq_true] at hg
    cases hna : matchNodeAttr (jsTrim line) with
    | some a => simpa [hg, hna] using h
    | none =>
      cases he : matchEdge (jsTrim line) with
      | some t =>
        obtain ⟨src, tgt, a⟩ := t
        simp only [hg, hna, he, Bool.false_eq_true, if_false]
        set n1 := (if assocHas st.nodes src = true then st.nodes
            else assocSet st.nodes src (mkImplicitNode src st.style)) with hn1def
        have h1 : assocHas n1 id = true := by
          rw [hn1def]
          split
          · exact h
          · exact assocHas_assocSet_of h _ _
        split
        · exact h1
        · exact assocHas_assocSet_of h1 _ _
      | none =>
        cases hd : matchNodeDef (jsTrim line) with
        | some p =>
          obtain ⟨nid, a⟩ := p
          simp only [hg, hna, he, hd, Bool.false_eq_true, if_false]
          split
          · exact h
          · exact assocHas_assocSet_of h _ _
        | none => simpa [hg, hna, he, hd] using h

theorem assocHas_foldl {st : PState} {id : String} (ls : List String)
    (h : assocHas st.nodes id = true) :
    assocHas (List.foldl lineStep st ls).nodes id = true := by
  induction ls generalizing st with
  | nil => exact h
  | cons l ls ih => exact ih (assocHas_lineStep l h)

theorem assocGet_lineStep_of_not_declares {st : PState} {id : String} (line : String)
    (hhas : assocHas st.nodes id = true)
    (hnd : declaresNode line id = false) :
    assocGet (lineStep st line).nodes id = assocGet st.nodes id := by
  unfold lineStep
  by_cases hg : guardSkip (jsTrim line) = true
  · simp [hg]
  · simp only [Bool.not_eq_true] at hg
    cases hna : matchNodeAttr (jsTrim line) with
    | some a => simp [hg, hna]
    | none =>
      cases he : matchEdge (jsTrim line) with
      | some t =>
        obtain ⟨src, tgt, a⟩ := t
        simp only [hg, hna, he, Bool.false_eq_true, if_false]
        set n1 := (if assocHas st.nodes src = true then st.nodes
            else assocSet st.nodes src (mkImplicitNode src st.style)) with hn1def
        have h1 : assocGet n1 id = assocGet st.nodes id := by
          rw [hn1def]
          split
          · rfl
          · rename_i hsrc
            have : id ≠ src := by
              intro hidsrc
              rw [hidsrc] at hhas
              simp [hhas] at hsrc
            exact assocGet_assocSet_ne _ this _
        have h1has : assocHas n1 id = true := by
          rw [hn1def]
          split
          · exact hhas
          · exact assocHas_assocSet_of hhas _ _
        split
        · exact h1
        · rename_i htgt
          have : id ≠ tgt := by
            intro hidtgt
            rw [hidtgt] at h1has
            simp [h1has] at htgt
          rw [assocGet_assocSet_ne _ this _]
          exact h1
      | none =>
        cases hd : matchNodeDef (jsTrim line) with
        | some p =>
          obtain ⟨nid, a⟩ := p
          simp only [hg, hna, he, hd, Bool.false_eq_true, if_false]
          by_cases harr : hasArrow (jsTrim line) = true
          · simp [harr]
          · simp only [Bool.not_eq_true] at harr
            simp only [harr, Bool.false_eq_true, if_false]
            have : nid ≠ id := by
              intro hin
              rw [declaresNode] at hnd
              simp [hg, hna, he, hd, harr, hin] at hnd
            exact assocGet_assocSet_ne _ (Ne.symm this) _
        | none => simp [hg, hna, he, hd]

theorem assocGet_foldl_of_not_declares {st : PState} {id : String} (ls : List String)
    (hhas : assocHas st.nodes id = true)
    (h : ∀ l ∈ ls, declaresNode l id = false) :
    assocGet (List.foldl lineStep st ls).nodes id = assocGet st.nodes id := by
  induction ls generalizing st with
  | nil => rfl
  | cons l ls ih =>
    have hstep := assocGet_lineStep_of_not_declares l hhas (h l (by simp))
    calc assocGet (List.foldl lineStep (lineStep st l) ls).nodes id
        = assocGet (lineStep st l).nodes id :=
          ih (assocHas_lineStep l hhas) (fun l' hl' => h l' (by simp [hl']))
      _ = assocGet st.nodes id := hstep

theorem nodup_keys_lineStep {st : PState} (line : String)
    (h : (st.nodes.map Prod.fst).Nodup) :
    ((lineStep st line).nodes.map Prod.fst).Nodup := by
  unfold lineStep
  by_cases hg : guardSkip (jsTrim line) = true
  · simpa [hg] using h
  · simp only [Bool.not_eq_true] at hg
    cases hna : matchNodeAttr (jsTrim line) with
    | some a => simpa [hg, hna] using h
    | none =>
      cases he : matchEdge (jsTrim line) with
      | some t =>
        obtain ⟨src, tgt, a⟩ := t
        simp only [hg, hna, he, Bool.false_eq_true, if_false]
        set n1 := (if assocHas st.nodes src = true then st.nodes
            else assocSet st.nodes src (mkImplicitNode src st.style)) with hn1def
        have h1 : (n1.map Prod.fst).Nodup := by
          rw [hn1def]
          split
          · exact h
          · exact nodup_keys_assocSet h _ _
        split
        · exact h1
        · exact nodup_keys_assocSet h1 _ _
      | none =>
        cases hd : matchNodeDef (jsTrim line) with
        | some p =>
          obtain ⟨nid, a⟩ := p
          simp only [hg, hna, he, hd, Bool.false_eq_true, if_false]
          split
          · exact h
          · exact nodup_keys_assocSet h _ _
        | none => simpa [hg, hna, he, hd] using h

theorem nodup_keys_parseLines (ls : List String) :
    (((parseLines ls).nodes).map Prod.fst).Nodup := by
  have main : ∀ (ls : List String) (st : PState), (st.nodes.map Prod.fst).Nodup →
      (((List.foldl lineStep st ls).nodes).map Prod.fst).Nodup := by
    intro ls
    induction ls with
    | nil => intro st h; exact h
    | cons l ls ih => intro st h; exact ih _ (nodup_keys_lineStep l h)
  exact main ls initState (by simp [initState])

theorem splitOnChar_no_sep {sep : Char} {l : List Char}
    (h : ∀ c ∈ l, c ≠ sep) : splitOnChar sep l = [l] := by
  induction l with
  | nil => rfl
  | cons c rest ih =>
    have hc : c ≠ sep := h c (by simp)
    have hr := ih (fun c' hc' => h c' (by simp [hc']))
    simp [splitOnChar, hc, hr]

/-! ## Claim theorems -/

/-- Claim C4: lines are processed strictly top-to-bottom (the parser is a
left fold of `lineStep`) and a style-directive line never touches the node
map, so it affects only nodes declared on later lines; on the input
`node[color=red]; "A"; node[color=blue]; "B";` node A has color red and node
B has color blue. -/
theorem c4_style_directives_not_retroactive :
    (∀ (st : PState) (line a : String),
        matchNodeAttr (jsTrim line) = some a → (lineStep st line).nodes = st.nodes)
    ∧ ((parseDotData "node[color=red];\n\"A\";\nnode[color=blue];\n\"B\";").nodes.map
          (fun o => (assocGet o "id", assocGet o "color")) =
        [(some (.str "A"), some (.str "red")), (some (.str "B"), some (.str "blue"))]) := by
  constructor
  · intro st line a h
    unfold lineStep
    by_cases hg : guardSkip (jsTrim line) = true
    · simp [hg]
    · simp only [Bool.not_eq_true] at hg
      simp [hg, h]
  · with_unfolding_all rfl

theorem c4_witness :
    (lineStep initState "node[color=red];").nodes = initState.nodes :=
  c4_style_directives_not_retroactive.1 initState "node[color=red];" "color=red" (by decide)

/-- Claim C9: the parser is total and permissive.  A line matching none of
the three patterns leaves the state unchanged (is silently skipped), an
attribute part with no `=` sign is dropped while the rest of its block is
still parsed. -/
theorem c9_parser_is_permissive :
    (∀ (st : PState) (line : String),
        matchNodeAttr (jsTrim line) = none →
        matchEdge (jsTrim line) = none →
        matchNodeDef (jsTrim line) = none →
        lineStep st line = st)
    ∧ (∀ (acc : JSObj) (part : String),
        (∀ c ∈ part.data, c ≠ '=') → attrStep acc part = acc)
    ∧ parseAttributes "a=1, junk, b=2" =
        [("a", .num (.fin 1)), ("b", .num (.fin 2))] := by
  refine ⟨?_, ?_, by with_unfolding_all rfl⟩
  · intro st line h1 h2 h3
    unfold lineStep
    by_cases hg : guardSkip (jsTrim line) = true
    · simp [hg]
    · simp only [Bool.not_eq_true] at hg
      simp [hg, h1, h2, h3]
  · intro acc part h
    have hsplit : splitOnChar '=' part.data = [part.data] := splitOnChar_no_sep h
    simp [attrStep, splitEq, hsplit]

theorem c9_witness :
    lineStep initState "hello world" = initState
    ∧ attrStep [] "junk" = [] :=
  ⟨c9_parser_is_permissive.1 initState "hello world" (by decide) (by decide) (by decide),
   c9_parser_is_permissive.2.1 [] "junk" (by decide)⟩

/-- Claim C2: for each `key=value` pair of an attribute block the value is
quote-stripped and stored as a number exactly when `parseFloat` succeeds and
JS re-serialization reproduces the exact string, else as the stripped
string; `"5"` becomes the number 5, `"0.1 sec"` and `"1e2"` stay strings. -/
theorem c2_numeric_reinterpretation :
    (∀ (acc : JSObj) (part k v : String),
        splitEq part = some (k, v) → ¬(k = "" ∨ v = "") →
        ((∀ nv : JSNum, jsParseFloat (stripQuotes v) = some nv →
            jsNumToString nv = stripQuotes v →
            attrStep acc part = assocSet acc k (.num nv))
         ∧ (jsParseFloat (stripQuotes v) = none →
            attrStep acc part = assocSet acc k (.str (stripQuotes v)))
         ∧ (∀ nv : JSNum, jsParseFloat (stripQuotes v) = some nv →
            jsNumToString nv ≠ stripQuotes v →
            attrStep acc part = assocSet acc k (.str (stripQuotes v)))))
    ∧ parseAttributes "x=\"5\", label=\"0.1 sec\", e=\"1e2\"" =
        [("x", .num (.fin 5)), ("label", .str "0.1 sec"), ("e", .str "1e2")] := by
  refine ⟨?_, by with_unfolding_all rfl⟩
  intro acc part k v hsp hkv
  refine ⟨?_, ?_, ?_⟩
  · intro nv hp hts
    simp [attrStep, hsp, hkv, hp, hts]
  · intro hp
    simp [attrStep, hsp, hkv, hp]
  · intro nv hp hts
    simp [attrStep, hsp, hkv, hp, hts]

theorem c2_witness :
    attrStep [] "x=\"5\"" = assocSet [] "x" (.num (.fin 5))
    ∧ attrStep [] "e=\"1e2\"" = assocSet [] "e" (.str "1e2") :=
  ⟨(c2_numeric_reinterpretation.1 [] "x=\"5\"" "x" "\"5\"" (by decide) (by decide)).1
      (.fin 5) (by with_unfolding_all rfl) (by with_unfolding_all rfl),
   (c2_numeric_reinterpretation.1 [] "e=\"1e2\"" "e" "\"1e2\"" (by decide) (by decide)).2.2
      (.fin 100) (by with_unfolding_all rfl) (by with_unfolding_all decide)⟩

/-- Claim C6 counterexample: `getSizeForNode` is not monotonic in the
declared width: a declared width of 0 is falsy, falls back to the default 1
and yields display size 15, while the larger declared width 1/2 yields 10. -/
theorem c6_counterexample :
    (0 : ℚ) ≤ 1 / 2
    ∧ getSizeForNode [("width", .num (.fin 0))] = .fin 15
    ∧ getSizeForNode [("width", .num (.fin (1 / 2)))] = .fin 10
    ∧ ¬ ((15 : ℚ) ≤ 10) := by
  refine ⟨by norm_num, by with_unfolding_all rfl, by with_unfolding_all rfl, by norm_num⟩

/-- Claim C6 (amended): `getSizeForNode` computes `width * 10 + 5` for a
nonzero declared numeric width, returns 15 when the width attribute is
absent (or 0, which is falsy and treated as absent), and is monotonic among
nonzero declared widths. -/
theorem c6_amended_display_size :
    (∀ node : JSObj, assocGet node "width" = none → getSizeForNode node = .fin 15)
    ∧ (∀ (node : JSObj) (w : ℚ), assocGet node "width" = some (.num (.fin w)) → w ≠ 0 →
        getSizeForNode node = .fin (w * 10 + 5))
    ∧ (∀ (n1 n2 : JSObj) (w1 w2 : ℚ),
        assocGet n1 "width" = some (.num (.fin w1)) → w1 ≠ 0 →
        assocGet n2 "width" = some (.num (.fin w2)) → w2 ≠ 0 →
        w1 ≤ w2 →
        ∃ q1 q2 : ℚ, getSizeForNode n1 = .fin q1 ∧ getSizeForNode n2 = .fin q2 ∧ q1 ≤ q2) := by
  have habs : ∀ node : JSObj, assocGet node "width" = none → getSizeForNode node = .fin 15 := by
    intro node h
    simp only [getSizeForNode, h]
    show jsAdd (jsMul (jsToNumber (.num (.fin 1))) (.fin 10)) (.fin 5) = .fin 15
    simp [jsToNumber, jsMul, jsAdd]
    norm_num
  have hfin : ∀ (node : JSObj) (w : ℚ), assocGet node "width" = some (.num (.fin w)) →
      w ≠ 0 → getSizeForNode node = .fin (w * 10 + 5) := by
    intro node w h hw
    simp only [getSizeForNode, h]
    have ht : jsTruthy (.num (.fin w)) = true := by simp [jsTruthy, hw]
    simp [ht, jsToNumber, jsMul, jsAdd]
  refine ⟨habs, hfin, ?_⟩
  intro n1 n2 w1 w2 h1 hw1 h2 hw2 hle
  exact ⟨w1 * 10 + 5, w2 * 10 + 5, hfin n1 w1 h1 hw1, hfin n2 w2 h2 hw2, by linarith⟩

theorem c6_witness :
    getSizeForNode [] = .fin 15
    ∧ getSizeForNode [("width", .num (.fin 4))] = .fin (4 * 10 + 5)
    ∧ (∃ q1 q2 : ℚ, getSizeForNode [("width", .num (.fin 1))] = .fin q1
        ∧ getSizeForNode [("width", .num (.fin 4))] = .fin q2 ∧ q1 ≤ q2) :=
  ⟨c6_amended_display_size.1 [] rfl,
   c6_amended_display_size.2.1 _ 4 rfl (by norm_num),
   c6_amended_display_size.2.2 _ _ 1 4 rfl (by norm_num) rfl (by norm_num) (by norm_num)⟩

/-- Claim C10: every link produced for an edge line carries a string label:
the `label` attribute is converted with `String(...)` (numbers to their
decimal string form) and an absent label yields the empty string. -/
theorem c10_edge_labels_are_strings :
    (∀ (st : PState) (line src tgt : String) (a : Option String),
        guardSkip (jsTrim line) = false →
        matchNodeAttr (jsTrim line) = none →
        matchEdge (jsTrim line) = some (src, tgt, a) →
        ((assocGet (optAttrs a) "label" = none →
            (lineStep st line).links = st.links ++ [⟨src, tgt, ""⟩])
         ∧ (∀ nv : JSNum, assocGet (optAttrs a) "label" = some (.num nv) →
            (lineStep st line).links = st.links ++ [⟨src, tgt, jsNumToString nv⟩])
         ∧ (∀ s : String, assocGet (optAttrs a) "label" = some (.str s) →
            (lineStep st line).links = st.links ++ [⟨src, tgt, s⟩])))
    ∧ (parseDotData "\"A\" -> \"B\" [label=\"5\"];").links = [⟨"A", "B", "5"⟩]
    ∧ (parseDotData "\"A\" -> \"B\";").links = [⟨"A", "B", ""⟩] := by
  refine ⟨?_, by with_unfolding_all rfl, by with_unfolding_all rfl⟩
  intro st line src tgt a hg hna he
  have hstep : (lineStep st line).links = st.links ++ [⟨src, tgt, edgeLabel (optAttrs a)⟩] := by
    unfold lineStep
    simp [hg, hna, he]
  refine ⟨?_, ?_, ?_⟩
  · intro h
    rw [hstep]
    simp [edgeLabel, h]
  · intro nv h
    rw [hstep]
    simp [edgeLabel, h, jsValToString]
  · intro s h
    rw [hstep]
    simp [edgeLabel, h, jsValToString]

theorem c10_witness :
    (lineStep initState "\"A\" -> \"B\" [label=\"5\"];").links =
      initState.links ++ [⟨"A", "B", jsNumToString (.fin 5)⟩] :=
  (c10_edge_labels_are_strings.1 initState "\"A\" -> \"B\" [label=\"5\"];" "A" "B"
      (some "label=\"5\"") (by decide) (by decide) (by decide)).2.1
    (.fin 5) (by with_unfolding_all rfl)

/-- Claim C5: the edge classifier is deterministic and total — every label
(including empty and `undefined`) maps to exactly one of the six fixed
colors, matching is case-insensitive substring containment on the static
keyword table, the categories are tried in the fixed priority order
interaction, perception, structure, attribute, creation with the first match
winning, and the "other" color is returned when nothing matches. -/
theorem c5_classifier_total_and_prioritized :
    (∀ lab : Option String, getEdgeColor lab ∈ edgeColorTable)
    ∧ getEdgeColor none = "#64748b"
    ∧ getEdgeColor (some "") = "#64748b"
    ∧ (∀ s : String, s ≠ "" →
        ((hasKeyword interactionKeywords (jsToLower s) = true →
            getEdgeColor (some s) = "#3b82f6")
         ∧ (hasKeyword interactionKeywords (jsToLower s) = false →
            hasKeyword perceptionKeywords (jsToLower s) = true →
            getEdgeColor (some s) = "#a855f7")
         ∧ (hasKeyword interactionKeywords (jsToLower s) = false →
            hasKeyword perceptionKeywords (jsToLower s) = false →
            hasKeyword structureKeywords (jsToLower s) = true →
            getEdgeColor (some s) = "#f97316")
         ∧ (hasKeyword interactionKeywords (jsToLower s) = false →
            hasKeyword perceptionKeywords (jsToLower s) = false →
            hasKeyword structureKeywords (jsToLower s) = false →
            hasKeyword attributeKeywords (jsToLower s) = true →
            getEdgeColor (some s) = "#10b981")
         ∧ (hasKeyword interactionKeywords (jsToLower s) = false →
            hasKeyword perceptionKeywords (jsToLower s) = false →
            hasKeyword structureKeywords (jsToLower s) = false →
            hasKeyword attributeKeywords (jsToLower s) = false →
            hasKeyword creationKeywords (jsToLower s) = true →
            getEdgeColor (some s) = "#ef4444")
         ∧ (hasKeyword interactionKeywords (jsToLower s) = false →
            hasKeyword perceptionKeywords (jsToLower s) = false →
            hasKeyword structureKeywords (jsToLower s) = false →
            hasKeyword attributeKeywords (jsToLower s) = false →
            hasKeyword creationKeywords (jsToLower s) = false →
            getEdgeColor (some s) = "#64748b"))) := by
  refine ⟨?_, rfl, rfl, ?_⟩
  · intro lab
    cases lab with
    | none => simp [getEdgeColor, edgeColorTable]
    | some s =>
      by_cases hs : s = ""
      · simp [getEdgeColor, hs, edgeColorTable]
      · simp only [getEdgeColor, hs, if_false]
        split_ifs <;> simp [edgeColorTable]
  · intro s hs
    refine ⟨?_, ?_, ?_, ?_, ?_, ?_⟩
    · intro h1
      simp [getEdgeColor, hs, h1]
    · intro h1 h2
      simp [getEdgeColor, hs, h1, h2]
    · intro h1 h2 h3
      simp [getEdgeColor, hs, h1, h2, h3]
    · intro h1 h2 h3 h4
      simp [getEdgeColor, hs, h1, h2, h3, h4]
    · intro h1 h2 h3 h4 h5
      simp [getEdgeColor, hs, h1, h2, h3, h4, h5]
    · intro h1 h2 h3 h4 h5
      simp [getEdgeColor, hs, h1, h2, h3, h4, h5]

theorem c5_witness :
    getEdgeColor (some "Наблюдение и Нажатие") = "#3b82f6"
    ∧ getEdgeColor (some "наблюдение части") = "#a855f7" :=
  ⟨(c5_classifier_total_and_prioritized.2.2.2 "Наблюдение и Нажатие" (by decide)).1
      (by decide),
   (c5_classifier_total_and_prioritized.2.2.2 "наблюдение части" (by decide)).2.1
      (by decide) (by decide)⟩

/-- Claim C1 counterexample: on the input `node [label=X];` followed by the
edge `"A" -> "B";`, the endpoints are implicitly inserted, but their label is
`X` (the active default style's label entry, spread after the
`label: identifier` field), not the identifier as the claim states. -/
theorem c1_counterexample :
    ((parseDotData "node [label=X];\n\"A\" -> \"B\";").nodes.map
        (fun o => (assocGet o "id", assocGet o "label")) =
      [(some (.str "A"), some (.str "X")), (some (.str "B"), some (.str "X"))])
    ∧ JSVal.str "X" ≠ JSVal.str "A" :=
  ⟨by with_unfolding_all rfl, by decide⟩

/-- Claim C1 (amended): after an edge line both endpoints are present in the
node map (and stay present through the remaining lines); an absent endpoint
is inserted as `{id, label, ...currentNodeStyle}` — it carries every
attribute of the default style active at that moment, and its `id` and
`label` fields equal the identifier provided the active style does not
itself contain an `id` or `label` entry (the style is spread last and would
override them). -/
theorem c1_amended_edge_endpoints :
    ∀ (st : PState) (line src tgt : String) (a : Option String),
      guardSkip (jsTrim line) = false →
      matchNodeAttr (jsTrim line) = none →
      matchEdge (jsTrim line) = some (src, tgt, a) →
      ((assocHas (lineStep st line).nodes src = true
          ∧ assocHas (lineStep st line).nodes tgt = true)
       ∧ (∀ rest : List String,
            assocHas (List.foldl lineStep (lineStep st line) rest).nodes src = true
            ∧ assocHas (List.foldl lineStep (lineStep st line) rest).nodes tgt = true)
       ∧ (assocHas st.nodes src = false →
            assocGet (lineStep st line).nodes src = some (mkImplicitNode src st.style))
       ∧ (assocHas st.nodes tgt = false →
            assocGet (lineStep st line).nodes tgt = some (mkImplicitNode tgt st.style))
       ∧ (∀ (id k : String) (v : JSVal), (st.style.map Prod.fst).Nodup →
            assocGet st.style k = some v →
            assocGet (mkImplicitNode id st.style) k = some v)
       ∧ (∀ id : String, assocGet st.style "id" = none →
            assocGet (mkImplicitNode id st.style) "id" = some (.str id))
       ∧ (∀ id : String, assocGet st.style "label" = none →
            assocGet (mkImplicitNode id st.style) "label" = some (.str id))) := by
  intro st line src tgt a hg hna he
  have hns : (lineStep st line).nodes =
      (if assocHas (if assocHas st.nodes src = true then st.nodes
            else assocSet st.nodes src (mkImplicitNode src st.style)) tgt = true then
        (if assocHas st.nodes src = true then st.nodes
            else assocSet st.nodes src (mkImplicitNode src st.style))
       else
        assocSet (if assocHas st.nodes src = true then st.nodes
            else assocSet st.nodes src (mkImplicitNode src st.style)) tgt
          (mkImplicitNode tgt st.style)) := by
    simp [lineStep, hg, hna, he]
  set n1 := (if assocHas st.nodes src = true then st.nodes
      else assocSet st.nodes src (mkImplicitNode src st.style)) with hn1
  have hsrc1 : assocHas n1 src = true := by
    rw [hn1]
    split
    · assumption
    · exact assocHas_assocSet_self _ _ _
  have hsrc : assocHas (lineStep st line).nodes src = true := by
    rw [hns]
    split
    · exact hsrc1
    · exact assocHas_assocSet_of hsrc1 _ _
  have htgt : assocHas (lineStep st line).nodes tgt = true := by
    rw [hns]
    split
    · rename_i h
      exact h
    · exact assocHas_assocSet_self _ _ _
  refine ⟨⟨hsrc, htgt⟩, ?_, ?_, ?_, ?_, ?_, ?_⟩
  · intro rest
    exact ⟨assocHas_foldl rest hsrc, assocHas_foldl rest htgt⟩
  · intro h
    have hn1eq : n1 = assocSet st.nodes src (mkImplicitNode src st.style) := by
      rw [hn1, h]
      simp
    rw [hns]
    split
    · rw [hn1eq, assocGet_assocSet_self]
    · rename_i hntgt
      have hne : src ≠ tgt := by
        intro hst
        rw [hst] at hsrc1
        exact hntgt hsrc1
      rw [assocGet_assocSet_ne _ hne _, hn1eq, assocGet_assocSet_self]
  · intro h
    by_cases hts : tgt = src
    · subst hts
      have hn1eq : n1 = assocSet st.nodes tgt (mkImplicitNode tgt st.style) := by
        rw [hn1, h]
        simp
      rw [hns]
      split
      · rw [hn1eq, assocGet_assocSet_self]
      · rename_i hntgt
        exact absurd hsrc1 hntgt
    · have hn1tgt : assocHas n1 tgt = false := by
        rw [hn1]
        split
        · exact h
        · rw [assocHas_assocSet_ne _ hts _]
          exact h
      rw [hns]
      split
      · rename_i hcond
        rw [hn1tgt] at hcond
        exact absurd hcond (by simp)
      · rw [assocGet_assocSet_self]
  · intro id k v hnd hv
    exact assocGet_objMerge_of_some hnd hv
  · intro id h
    rw [mkImplicitNode, assocGet_objMerge_of_none h]
    rfl
  · intro id h
    rw [mkImplicitNode, assocGet_objMerge_of_none h]
    rfl

theorem c1_witness :
    assocHas (lineStep initState "\"A\" -> \"B\";").nodes "A" = true
    ∧ assocGet (lineStep initState "\"A\" -> \"B\";").nodes "B"
        = some (mkImplicitNode "B" initState.style) :=
  ⟨(c1_amended_edge_endpoints initState "\"A\" -> \"B\";" "A" "B" none
      (by decide) (by decide) (by decide)).1.1,
   (c1_amended_edge_endpoints initState "\"A\" -> \"B\";" "A" "B" none
      (by decide) (by decide) (by decide)).2.2.2.1 (by decide)⟩

/-- Claim C3: node identifiers in the parser's node map are unique for every
input (the map never holds two entries with the same key), and when the same
identifier is declared several times the surviving entry is the one built by
the last declaring line, from the default style active at that line (last
write wins). -/
theorem c3_unique_ids_last_write_wins :
    (∀ ls : List String, (((parseLines ls).nodes).map Prod.fst).Nodup)
    ∧ (∀ (pre post : List String) (line id : String) (a : Option String),
        guardSkip (jsTrim line) = false →
        matchNodeAttr (jsTrim line) = none →
        matchEdge (jsTrim line) = none →
        matchNodeDef (jsTrim line) = some (id, a) →
        hasArrow (jsTrim line) = false →
        (∀ l ∈ post, declaresNode l id = false) →
        assocGet (parseLines (pre ++ line :: post)).nodes id =
          some (mkDeclNode id (parseLines pre).style (optAttrs a))) := by
  refine ⟨nodup_keys_parseLines, ?_⟩
  intro pre post line id a hg hna he hd harr hpost
  have hsplit : parseLines (pre ++ line :: post)
      = List.foldl lineStep (lineStep (parseLines pre) line) post := by
    simp [parseLines, List.foldl_append]
  have hstep : (lineStep (parseLines pre) line).nodes
      = assocSet (parseLines pre).nodes id
          (mkDeclNode id (parseLines pre).style (optAttrs a)) := by
    simp [lineStep, hg, hna, he, hd, harr]
  have hhas : assocHas (lineStep (parseLines pre) line).nodes id = true := by
    rw [hstep]
    exact assocHas_assocSet_self _ _ _
  rw [hsplit, assocGet_foldl_of_not_declares post hhas hpost, hstep,
    assocGet_assocSet_self]

theorem c3_witness :
    assocGet (parseLines (([] : List String) ++ "\"A\" [x=1];" :: ["junk"])).nodes "A"
      = some (mkDeclNode "A" (parseLines []).style (optAttrs (some "x=1"))) :=
  c3_unique_ids_last_write_wins.2 [] ["junk"] "\"A\" [x=1];" "A" (some "x=1")
    (by decide) (by decide) (by decide) (by decide) (by decide) (by decide)

/-! ## Layout lemmas -/

theorem assocGet_filter_self {α : Type} (m : List (String × α)) (k : String) :
    assocGet (m.filter (fun p => p.1 ≠ k)) k = none := by
  induction m with
  | nil => rfl
  | cons p rest ih =>
    by_cases hp : p.1 = k
    · simpa [List.filter_cons, hp] using ih
    · simpa [List.filter_cons, hp, assocGet] using ih

theorem assocGet_filter_none {α : Type} {m : List (String × α)} {k : String}
    (h : assocGet m k = none) (q : String × α → Bool) :
    assocGet (m.filter q) k = none := by
  induction m with
  | nil => rfl
  | cons p rest ih =>
    simp only [assocGet] at h
    by_cases hp : p.1 = k
    · simp [hp] at h
    · simp only [hp, if_false] at h
      simp only [List.filter_cons]
      split
      · simp [assocGet, hp, ih h]
      · exact ih h

theorem getForce_foldl_remove_none {name : String} :
    ∀ (names : List String) (sim : Simulation), getForce sim name = none →
      getForce (names.foldl removeForce sim) name = none := by
  intro names
  induction names with
  | nil => intro sim h; exact h
  | cons n ns ih =>
    intro sim h
    rw [List.foldl_cons]
    apply ih
    simp only [removeForce, getForce] at h ⊢
    exact assocGet_filter_none h _

theorem getForce_clear_of_mem {name : String} (h : name ∈ layoutForceNames)
    (sim : Simulation) : getForce (clearLayoutForces sim) name = none := by
  have main : ∀ (names : List String) (s : Simulation), name ∈ names →
      getForce (names.foldl removeForce s) name = none := by
    intro names
    induction names with
    | nil => intro s h0; simp at h0
    | cons n ns ih =>
      intro s h0
      rw [List.foldl_cons]
      rcases List.mem_cons.mp h0 with h1 | h1
      · subst h1
        apply getForce_foldl_remove_none
        simp only [removeForce, getForce]
        exact assocGet_filter_self _ _
      · exact ih _ h1
  exact main layoutForceNames sim h

theorem getForce_applyLayoutForces_congr (M : JsMath) (mode : LayoutType) (w h : ℚ)
    (g : GraphData) {s1 s2 : Simulation} {name : String}
    (hn : getForce s1 name = getForce s2 name) :
    getForce (applyLayoutForces M s1 mode w h g) name
      = getForce (applyLayoutForces M s2 mode w h g) name := by
  simp only [getForce] at hn
  cases mode <;>
    simp [applyLayoutForces, setForce, getForce, assocGet_assocSet, hn]

theorem nodes_applyLayoutForces (M : JsMath) (sim : Simulation) (mode : LayoutType)
    (w h : ℚ) (g : GraphData) :
    (applyLayoutForces M sim mode w h g).nodes = sim.nodes := by
  cases mode <;> simp [applyLayoutForces, setForce]

theorem nodes_clearLayoutForces (sim : Simulation) :
    (clearLayoutForces sim).nodes = sim.nodes := by
  have main : ∀ (names : List String) (s : Simulation),
      (names.foldl removeForce s).nodes = s.nodes := by
    intro names
    induction names with
    | nil => intro s; rfl
    | cons n ns ih => intro s; rw [List.foldl_cons, ih]; rfl
  exact main layoutForceNames sim

/-- Claim C7: the layout-change effect removes every force name the previous
mode could have installed (link, charge, center, collide, radial, x, y)
before installing the new mode's forces — so the result is independent of
the previous force map, and switching to radial leaves no `x`/`y` force —
and then restarts the solver hot (`alpha(1).restart()`) without touching the
node records and their positions. -/
theorem c7_layout_switch_discards_old_forces :
    (∀ (sim : Simulation) (name : String), name ∈ layoutForceNames →
        getForce (clearLayoutForces sim) name = none)
    ∧ (∀ (M : JsMath) (sim sim' : Simulation) (mode : LayoutType) (w h : ℚ)
          (g : GraphData) (name : String), name ∈ layoutForceNames →
        getForce (handleLayoutChange M sim mode w h g) name
          = getForce (handleLayoutChange M sim' mode w h g) name)
    ∧ (∀ (M : JsMath) (sim : Simulation) (w h : ℚ) (g : GraphData),
        getForce (handleLayoutChange M sim .radial w h g) "x" = none
        ∧ getForce (handleLayoutChange M sim .radial w h g) "y" = none)
    ∧ (∀ (M : JsMath) (sim : Simulation) (mode : LayoutType) (w h : ℚ) (g : GraphData),
        (handleLayoutChange M sim mode w h g).alpha = 1
        ∧ (handleLayoutChange M sim mode w h g).running = true
        ∧ (handleLayoutChange M sim mode w h g).nodes = sim.nodes) := by
  refine ⟨?_, ?_, ?_, ?_⟩
  · intro sim name h
    exact getForce_clear_of_mem h sim
  · intro M sim sim' mode w h g name hname
    have h1 : getForce (clearLayoutForces sim) name
        = getForce (clearLayoutForces sim') name := by
      rw [getForce_clear_of_mem hname, getForce_clear_of_mem hname]
    have h2 := @getForce_applyLayoutForces_congr M mode w h g
      (clearLayoutForces sim) (clearLayoutForces sim') name h1
    simpa [handleLayoutChange, getForce] using h2
  · intro M sim w h g
    have hx := @getForce_clear_of_mem "x" (by simp [layoutForceNames]) sim
    have hy := @getForce_clear_of_mem "y" (by simp [layoutForceNames]) sim
    simp only [getForce] at hx hy
    constructor
    · simp [handleLayoutChange, applyLayoutForces, setForce, getForce,
        assocGet_assocSet, hx]
    · simp [handleLayoutChange, applyLayoutForces, setForce, getForce,
        assocGet_assocSet, hy]
  · intro M sim mode w h g
    refine ⟨by simp [handleLayoutChange], by simp [handleLayoutChange], ?_⟩
    simp [handleLayoutChange, nodes_applyLayoutForces, nodes_clearLayoutForces]

theorem c7_witness :
    getForce (clearLayoutForces ⟨[("x", Force.manyBody 0)], 0, false, []⟩) "x" = none
    ∧ getForce (handleLayoutChange ⟨0, id, id⟩ ⟨[("x", Force.manyBody 0)], 0, false, []⟩
        LayoutType.radial 800 600 ⟨[], []⟩) "x" = none :=
  ⟨c7_layout_switch_discards_old_forces.1 ⟨[("x", Force.manyBody 0)], 0, false, []⟩ "x"
      (by decide),
   (c7_layout_switch_discards_old_forces.2.2.1 ⟨0, id, id⟩
      ⟨[("x", Force.manyBody 0)], 0, false, []⟩ 800 600 ⟨[], []⟩).1⟩

theorem gridCols_least (n : ℕ) :
    3 * n ≤ 2 * gridCols n ^ 2
    ∧ (gridCols n = 0 ∨ 2 * (gridCols n - 1) ^ 2 < 3 * n) := by
  have hval : gridCols n =
      if 3 * n ≤ 2 * Nat.sqrt ((3 * n + 1) / 2) ^ 2 then Nat.sqrt ((3 * n + 1) / 2)
      else Nat.sqrt ((3 * n + 1) / 2) + 1 := by
    simp only [gridCols]
  have hs1 : Nat.sqrt ((3 * n + 1) / 2) ^ 2 ≤ (3 * n + 1) / 2 := Nat.sqrt_le' _
  have hs2 : (3 * n + 1) / 2 < (Nat.sqrt ((3 * n + 1) / 2) + 1) ^ 2 :=
    Nat.lt_succ_sqrt' _
  generalize hgen : Nat.sqrt ((3 * n + 1) / 2) = s at hval hs1 hs2
  by_cases hcase : 3 * n ≤ 2 * s ^ 2
  · rw [hval, if_pos hcase]
    refine ⟨hcase, ?_⟩
    rcases Nat.eq_zero_or_pos s with hz | hpos
    · exact Or.inl hz
    · right
      obtain ⟨m, hm⟩ : ∃ m, s = m + 1 := ⟨s - 1, by omega⟩
      subst hm
      have e1 : (m + 1) ^ 2 = m * m + 2 * m + 1 := by ring
      have e2 : (m + 1 - 1) ^ 2 = m * m := by
        simp [pow_two]
      rw [e2]
      rw [e1] at hs1
      generalize m * m = M at hs1 ⊢
      omega
  · rw [hval, if_neg hcase]
    have e1 : (s + 1) ^ 2 = s * s + 2 * s + 1 := by ring
    have e2 : s ^ 2 = s * s := pow_two s
    rw [e1] at hs2
    rw [e2] at hcase
    constructor
    · rw [e1]
      generalize s * s = S at hs2 hcase ⊢
      omega
    · right
      simp only [Nat.add_sub_cancel, e2]
      generalize s * s = S at hcase ⊢
      omega

theorem gridCols_eq_ceil (n : ℕ) :
    gridCols n = ⌈Real.sqrt ((1.5 : ℝ) * n)⌉₊ := by
  obtain ⟨h1, h2⟩ := gridCols_least n
  have hnn : (0 : ℝ) ≤ (1.5 : ℝ) * n := by positivity
  apply le_antisymm
  · rcases h2 with h0 | h2
    · simp [h0]
    · have hk1 : 1 ≤ gridCols n := by
        by_contra hk
        have : gridCols n = 0 := by omega
        rw [this] at h1 h2
        simp at h1
        omega
      have hlt : ((gridCols n - 1 : ℕ) : ℝ) < Real.sqrt ((1.5 : ℝ) * n) := by
        rw [Real.lt_sqrt (by positivity)]
        have hcast : ((2 : ℝ) * ((gridCols n - 1 : ℕ) : ℝ) ^ 2 < 3 * n) := by
          exact_mod_cast h2
        nlinarith
      have := Nat.lt_ceil.mpr hlt
      omega
  · rw [Nat.ceil_le]
    have hle : (1.5 : ℝ) * n ≤ ((gridCols n : ℕ) : ℝ) ^ 2 := by
      have hcast : ((3 : ℝ) * n ≤ 2 * ((gridCols n : ℕ) : ℝ) ^ 2) := by
        exact_mod_cast h1
      nlinarith
    calc Real.sqrt ((1.5 : ℝ) * n) ≤ Real.sqrt (((gridCols n : ℕ) : ℝ) ^ 2) :=
          Real.sqrt_le_sqrt hle
      _ = ((gridCols n : ℕ) : ℝ) := Real.sqrt_sq (by positivity)

/-- Claim C8: in grid mode the number of columns is `ceil(sqrt(1.5 * N))`
and each node's target position is the deterministic function of its index
given by `column = index mod columns`, `row = floor(index / columns)` on a
120-pixel grid centered in the viewport, installed as `x`/`y` forces of
strength 1 over a weak link force (0.01) and weak repulsion (-50). -/
theorem c8_grid_layout_deterministic_targets :
    ∀ (M : JsMath) (sim : Simulation) (w h : ℚ) (g : GraphData),
      (∃ fx : JSObj → ℕ → ℚ,
        getForce (applyLayoutForces M sim .grid w h g) "x" = some (.forceX fx 1)
        ∧ ∀ (d : JSObj) (i : ℕ), fx d i =
            w / 2 - ((gridCols g.nodes.length : ℚ) * 120) / 2
              + ((i % gridCols g.nodes.length : ℕ) : ℚ) * 120)
      ∧ (∃ fy : JSObj → ℕ → ℚ,
        getForce (applyLayoutForces M sim .grid w h g) "y" = some (.forceY fy 1)
        ∧ ∀ (d : JSObj) (i : ℕ), fy d i =
            h / 2 - ((g.nodes.length : ℚ) / (gridCols g.nodes.length : ℚ) * 120) / 2
              + ((i / gridCols g.nodes.length : ℕ) : ℚ) * 120)
      ∧ gridCols g.nodes.length = ⌈Real.sqrt ((1.5 : ℝ) * g.nodes.length)⌉₊
      ∧ getForce (applyLayoutForces M sim .grid w h g) "link"
          = some (.link g.links none (some (1 / 100)))
      ∧ getForce (applyLayoutForces M sim .grid w h g) "charge"
          = some (.manyBody (-50)) := by
  intro M sim w h g
  refine ⟨?_, ?_, gridCols_eq_ceil _, ?_, ?_⟩
  · refine ⟨_, ?_, fun d i => rfl⟩
    simp [applyLayoutForces, setForce, getForce, assocGet_assocSet]
  · refine ⟨_, ?_, fun d i => rfl⟩
    simp [applyLayoutForces, setForce, getForce, assocGet_assocSet]
  · simp [applyLayoutForces, setForce, getForce, assocGet_assocSet]
  · simp [applyLayoutForces, setForce, getForce, assocGet_assocSet]

end Museum
